import Mathlib

/-!
Verification of the billBoss backend (src/backend/src/index.ts together with
src/backend/schema.sql): a shallow embedding of the bill-series data model,
the occurrence generator, window materialization and the split-edit
(this/future) update and delete handlers, with theorems settling the spec
claims about them.

Dates are calendar dates (`YYYY-MM-DD` strings in storage); the embedding
mirrors date-fns arithmetic (parseISO, formatISO, addDays, addWeeks,
addMonths, addYears) on a plain year/month/day structure, and SQLite string
comparison (memcmp, which on ASCII digit strings agrees with codepoint
order) for the SQL predicates on TEXT columns.
-/

namespace BillBoss

/-- Gregorian leap-year rule, as used by JS Date / date-fns. -/
def isLeap (y : Nat) : Bool :=
  y % 4 == 0 && (y % 100 != 0 || y % 400 == 0)

/-- Number of days in month `m` (1-12) of year `y`. -/
def daysInMonth (y m : Nat) : Nat :=
  if m == 2 then (if isLeap y then 29 else 28)
  else if m == 4 || m == 6 || m == 9 || m == 11 then 30
  else 31

/-- A calendar date: year, month (1-12), day (1-daysInMonth). -/
structure Date where
  year : Nat
  month : Nat
  day : Nat
deriving DecidableEq, Repr

instance : BEq Date := ⟨fun a b => decide (a = b)⟩

/-- Validity of a calendar date. -/
def Date.valid (d : Date) : Prop :=
  1 ≤ d.month ∧ d.month ≤ 12 ∧ 1 ≤ d.day ∧ d.day ≤ daysInMonth d.year d.month

instance (d : Date) : Decidable d.valid := by unfold Date.valid; infer_instance

/-- Linear month index (used by date-fns month arithmetic). -/
def Date.monthIdx (d : Date) : Nat := d.year * 12 + (d.month - 1)

/-- date-fns `addMonths d n`: advance the month index by `n`, clamping the
day-of-month to the length of the target month. -/
def addMonthsClamped (d : Date) (n : Nat) : Date :=
  ⟨(d.monthIdx + n) / 12, (d.monthIdx + n) % 12 + 1,
    min d.day (daysInMonth ((d.monthIdx + n) / 12) ((d.monthIdx + n) % 12 + 1))⟩

/-- The day after `d` (standard calendar successor). -/
def nextDay (d : Date) : Date :=
  if d.day < daysInMonth d.year d.month then ⟨d.year, d.month, d.day + 1⟩
  else if d.month < 12 then ⟨d.year, d.month + 1, 1⟩
  else ⟨d.year + 1, 1, 1⟩

/-- date-fns `addDays d n` for a non-negative count. -/
def addDaysN (d : Date) : Nat → Date
  | 0 => d
  | n + 1 => nextDay (addDaysN d n)

/-- Strict chronological order on dates (date-fns `isBefore` / `isAfter`). -/
def dateLt (a b : Date) : Bool :=
  a.year < b.year ||
    (a.year == b.year &&
      (a.month < b.month || (a.month == b.month && a.day < b.day)))

/-- Byte-wise order on character lists; on ASCII this is SQLite memcmp order. -/
def charListLt : List Char → List Char → Bool
  | [], [] => false
  | [], _ :: _ => true
  | _ :: _, [] => false
  | a :: as, b :: bs =>
    if a.toNat < b.toNat then true
    else if a.toNat == b.toNat then charListLt as bs
    else false

/-- SQLite `<` on TEXT values. -/
def strLt (a b : String) : Bool := charListLt a.data b.data

/-- SQLite `<=` on TEXT values. -/
def strLe (a b : String) : Bool := a == b || strLt a b

/-- Whether the first list is a leading segment of the second
(JS `String.startsWith`, on character lists). -/
def leadsWith : List Char → List Char → Bool
  | [], _ => true
  | _ :: _, [] => false
  | a :: as, b :: bs => a == b && leadsWith as bs

/-- Whether the pattern occurs somewhere in the text
(JS `String.includes`, on character lists). -/
def containsSeq (pat : List Char) : List Char → Bool
  | [] => leadsWith pat []
  | c :: cs => leadsWith pat (c :: cs) || containsSeq pat cs

/-- Split a character list on a separator character (the `split` used on the
date and month strings; a separator between two others yields an empty
piece, and the empty input yields one empty piece). -/
def splitOnChar (sep : Char) : List Char → List (List Char)
  | [] => [[]]
  | c :: rest =>
    let r := splitOnChar sep rest
    if c == sep then [] :: r
    else
      match r with
      | h :: t => (c :: h) :: t
      | [] => [[c]]

/-- Parse a list of decimal digit characters (at least one). -/
def parseNatDigits : List Char → Option Nat
  | [] => none
  | cs => cs.foldl (fun acc c =>
      match acc with
      | none => none
      | some n => if c.isDigit then some (n * 10 + (c.toNat - 48)) else none)
      (some 0)

/-- date-fns `parseISO` restricted to the extended date-only format the
backend stores: `YYYY-MM-DD` with a real calendar date (parseISO validates
month and day ranges and returns an Invalid Date otherwise, which the
backend treats as a parse failure). -/
def parseDate (s : String) : Option Date :=
  match splitOnChar '-' s.data with
  | [ys, ms, ds] =>
    if ys.length == 4 && ms.length == 2 && ds.length == 2 then
      match parseNatDigits ys, parseNatDigits ms, parseNatDigits ds with
      | some y, some m, some d =>
        if 1 ≤ m ∧ m ≤ 12 ∧ 1 ≤ d ∧ d ≤ daysInMonth y m then some ⟨y, m, d⟩
        else none
      | _, _, _ => none
    else none
  | _ => none

/-- Left-pad the decimal form of `n` with zeros to `width` characters. -/
def padNum (width n : Nat) : String :=
  let s := toString n
  String.mk (List.replicate (width - s.length) '0') ++ s

/-- date-fns `formatISO` with date representation: `YYYY-MM-DD`. -/
def formatDate (d : Date) : String :=
  padNum 4 d.year ++ "-" ++ padNum 2 d.month ++ "-" ++ padNum 2 d.day

/-! The data model of schema.sql. -/

inductive Recurrence
  | none | weekly | monthly | yearly
deriving DecidableEq, Repr

inductive Status
  | upcoming | completed | missed | skipped
deriving DecidableEq, Repr

/-- A row of the `Bill` table (a recurring-bill series). -/
structure Bill where
  id : String
  name : String
  amount : Int
  dueDate : String
  recurrence : Recurrence
  skipped : Bool
  deletedFromDate : Option String
deriving DecidableEq, Repr

/-- A row of the `BillOccurrence` table. -/
structure Occ where
  id : String
  bill_id : String
  name : String
  due_date : String
  is_paid : Bool
  paid_date : Option String
  amount : Int
  status : Status
  deleted : Bool
deriving DecidableEq, Repr

/-- The durable storage state: the `Bill` and `BillOccurrence` tables, in
insertion order. -/
structure DB where
  bills : List Bill
  occs : List Occ
deriving DecidableEq, Repr

/-- The generator's existence probe:
`SELECT * FROM BillOccurrence WHERE bill_id = ? AND due_date = ? AND deleted = 0`
is non-empty. -/
def activeAt (occs : List Occ) (bid ds : String) : Bool :=
  occs.any (fun o => o.bill_id == bid && o.due_date == ds && !o.deleted)

/-- The fresh occurrence record built inside `generateOccurrences`. -/
def mkOcc (b : Bill) (oid ds : String) : Occ :=
  { id := oid, bill_id := b.id, name := b.name, due_date := ds,
    is_paid := false, paid_date := Option.none, amount := b.amount,
    status := Status.upcoming, deleted := false }

/-- Whether the deleted-from gate at the top of the generator loop stops
generation at cursor date `cur`: the gate fires when `deletedFromDate` is
truthy (set and non-empty, per the JS `if (bill.deletedFromDate)`) and is
unparseable, or parses to a date at or before the cursor. -/
def dfdStop (b : Bill) (cur : Date) : Bool :=
  match b.deletedFromDate with
  | Option.none => false
  | some s =>
    if s == "" then false
    else
      match parseDate s with
      | Option.none => true
      | some del => !(dateLt cur del)

/-- The `while (!isAfter(currentDate, endDate))` loop of
`generateOccurrences`: at each cursor date, check the deleted-from gate,
probe the store for a non-deleted occurrence at (bill id, date), emit a
fresh candidate when none exists (consuming one uuid from `ids`), and step
the cursor by the recurrence interval (weekly +7 days, monthly +1 month,
yearly +1 year, none stops after the first iteration). `fuel` bounds the
iteration count; callers pass more fuel than the loop can consume. -/
def genLoop (b : Bill) (ids : Nat → String) (occs : List Occ) (endD : Date) :
    Nat → Date → Nat → List Occ
  | 0, _, _ => []
  | fuel + 1, cur, k =>
    if dateLt endD cur then []
    else if dfdStop b cur then []
    else
      let ds := formatDate cur
      let emit := !(activeAt occs b.id ds)
      let rest :=
        match b.recurrence with
        | Recurrence.weekly => genLoop b ids occs endD fuel (addDaysN cur 7) (if emit then k + 1 else k)
        | Recurrence.monthly => genLoop b ids occs endD fuel (addMonthsClamped cur 1) (if emit then k + 1 else k)
        | Recurrence.yearly => genLoop b ids occs endD fuel (addMonthsClamped cur 12) (if emit then k + 1 else k)
        | Recurrence.none => []
      if emit then mkOcc b (ids k) ds :: rest else rest

/-- `generateOccurrences(bill, monthsAhead, ctx)`: parse the anchor
(`bill.dueDate`; unparseable anchors yield the empty list), compute
`endDate = addMonths(anchor, monthsAhead)` and run the generation loop.
`ids` supplies the uuids (one per emitted occurrence, starting at index
`k0`); `occs` is the occurrence table the loop probes. -/
def generateOccurrences (b : Bill) (monthsAhead : Nat) (occs : List Occ)
    (ids : Nat → String) (k0 : Nat) : List Occ :=
  match parseDate b.dueDate with
  | Option.none => []
  | some a => genLoop b ids occs (addMonthsClamped a monthsAhead)
      (400 * (monthsAhead + 2)) a k0

/-! Storage writes and the route handlers. -/

/-- The schema constraint check an occurrence INSERT is subject to:
`id` is the primary key and `UNIQUE (bill_id, due_date)` ranges over every
row of the table (the constraint in schema.sql is not filtered on
`deleted`). -/
def occConflict (occs : List Occ) (o : Occ) : Bool :=
  occs.any (fun p => p.id == o.id || (p.bill_id == o.bill_id && p.due_date == o.due_date))

/-- The message SQLite (Cloudflare D1) produces when the anonymous
`UNIQUE ("bill_id", "due_date")` constraint of schema.sql rejects a write:
the engine names the constrained columns, since the schema gives the
constraint no name. -/
def sqliteUniqueMsg : String :=
  "UNIQUE constraint failed: BillOccurrence.bill_id, BillOccurrence.due_date"

/-- The handlers' duplicate test: `err.message.includes("unique_bill_due_date")`. -/
def msgHasDupName (msg : String) : Bool :=
  containsSeq "unique_bill_due_date".data msg.data

/-- The occurrence insert loop shared by POST /api/bills and GET /api/bills:
insert each candidate in order; a constraint violation raises the engine
message, which the catch block inspects for the substring
`unique_bill_due_date` — a match skips the candidate and continues, anything
else rethrows, aborting the rest of the batch. Returns the resulting rows
and whether the batch aborted. -/
def insertBatch (occs : List Occ) : List Occ → List Occ × Bool
  | [] => (occs, false)
  | o :: rest =>
    if occConflict occs o then
      if msgHasDupName sqliteUniqueMsg then insertBatch occs rest
      else (occs, true)
    else insertBatch (occs ++ [o]) rest

/-- POST /api/bills: validate the fields, insert the new `Bill` row, generate
12 months of occurrences against the current store and insert them through
the guarded batch loop. Responses are modelled by their status codes. -/
def postBill (db : DB) (nm : String) (amount : Int) (dueDate : String)
    (recurrence : Recurrence) (billId : String) (ids : Nat → String) :
    Except Nat Bill × DB :=
  if nm == "" || dueDate == "" then (Except.error 400, db)
  else
    match parseDate dueDate with
    | Option.none => (Except.error 400, db)
    | some _ =>
      let newBill : Bill :=
        { id := billId, name := nm, amount := amount, dueDate := dueDate,
          recurrence := recurrence, skipped := false, deletedFromDate := Option.none }
      if db.bills.any (fun b => b.id == billId) then (Except.error 500, db)
      else
        let db1 : DB := { db with bills := db.bills ++ [newBill] }
        let cands := generateOccurrences newBill 12 db1.occs ids 0
        match insertBatch db1.occs cands with
        | (rows, true) => (Except.error 500, { db1 with occs := rows })
        | (rows, false) => (Except.ok newBill, { db1 with occs := rows })

/-- `parseInt` on one piece of the month parameter: the longest decimal
digit prefix, NaN (none) when there is no leading digit. -/
def parseIntLead (cs : List Char) : Option Nat :=
  match cs.takeWhile Char.isDigit with
  | [] => Option.none
  | ds => parseNatDigits ds

/-- Parsing and validation of the `month` query parameter (format YYYY-MM):
split on `-`, `parseInt` the first two pieces, require a month in 1..12. -/
def parseMonthParam (month : String) : Option (Nat × Nat) :=
  match splitOnChar '-' month.data with
  | ys :: ms :: _ =>
    match parseIntLead ys, parseIntLead ms with
    | some y, some m => if 1 ≤ m ∧ m ≤ 12 then some (y, m) else Option.none
    | _, _ => Option.none
  | _ => Option.none

/-- Candidate collection for one bill inside GET /api/bills: skip the bill
when an already-read occurrence of it falls in the month (due-date prefix
match against the raw month token); otherwise compute `monthsDifference`
from the parsed anchor, skip bills starting after the window, and keep the
generated occurrences whose due date starts with the month token. Returns
the kept candidates and the number of uuids the generator consumed. -/
def candidatesFor (existing dbOccs : List Occ) (month : String) (y m : Nat)
    (ids : Nat → String) (k : Nat) (b : Bill) : List Occ × Nat :=
  let hasOccurrence := existing.any (fun o => o.bill_id == b.id && leadsWith month.data o.due_date.data)
  if hasOccurrence then ([], 0)
  else
    match parseDate b.dueDate with
    | Option.none => ([], 0)
    | some bd =>
      let md : Int := ((y : Int) - (bd.year : Int)) * 12 + (((m : Int) - 1) - ((bd.month : Int) - 1))
      if md < 0 then ([], 0)
      else
        let gen := generateOccurrences b (md + 1).toNat dbOccs ids k
        (gen.filter (fun o => leadsWith month.data o.due_date.data), gen.length)

/-- GET /api/bills (window materialization): parse the month, read the
non-deleted occurrences with due date in the month, read the bills whose
deleted-from boundary is null or after the month end, collect candidates per
bill (threading the uuid counter), insert them through the guarded batch
loop, and on success re-read and return the active window. An aborted batch
fails the request with 500, leaving the partial inserts in place. -/
def getBills (db : DB) (month : String) (ids : Nat → String) :
    Except Nat (List Occ) × DB :=
  match parseMonthParam month with
  | Option.none => (Except.error 400, db)
  | some (y, m) =>
    let startD := formatDate ⟨y, m, 1⟩
    let endD := formatDate ⟨y, m, daysInMonth y m⟩
    let existing := db.occs.filter
      (fun o => strLe startD o.due_date && strLe o.due_date endD && !o.deleted)
    let bills := db.bills.filter (fun b =>
      match b.deletedFromDate with
      | Option.none => true
      | some dfd => strLt endD dfd)
    let toInsert := (bills.foldl
      (fun (acc : List Occ × Nat) b =>
        let r := candidatesFor existing db.occs month y m ids acc.2 b
        (acc.1 ++ r.1, acc.2 + r.2))
      ([], 0)).1
    match insertBatch db.occs toInsert with
    | (rows, true) => (Except.error 500, { db with occs := rows })
    | (rows, false) =>
      let finalOccs := rows.filter
        (fun o => strLe startD o.due_date && strLe o.due_date endD && !o.deleted)
      (Except.ok finalOccs, { db with occs := rows })

/-- The optional fields of a PUT /api/bills/:id request body. -/
structure Patch where
  name : Option String
  amount : Option Int
  dueDate : Option String
  is_paid : Option Bool
  paid_date : Option (Option String)
  status : Option Status
deriving DecidableEq, Repr

/-- The split-edit scope (`updateOption` / `deleteOption`). -/
inductive Scope
  | thisOcc | future
deriving DecidableEq, Repr

/-- The `updatedFields` merge: each field defaults to the target
occurrence's current value when absent from the request. -/
def resolveFields (p : Patch) (ex : Occ) : Occ :=
  { ex with
    name := p.name.getD ex.name,
    amount := p.amount.getD ex.amount,
    due_date := p.dueDate.getD ex.due_date,
    is_paid := p.is_paid.getD ex.is_paid,
    paid_date := p.paid_date.getD ex.paid_date,
    status := p.status.getD ex.status }

/-- The future-scope guard: `dueDate !== undefined && dueDate !== existingOccurrence.due_date`. -/
def badDueChange (p : Patch) (ex : Occ) : Bool :=
  match p.dueDate with
  | some d => !(d == ex.due_date)
  | Option.none => false

/-- PUT /api/bills/:id: look up the occurrence, merge the patch. Scope
`this` rewrites the six updatable columns of that row (the UNIQUE
constraint rejects a colliding due-date change, failing the request with no
write; the catch block's string test decides between 409 and 500). Scope
`future` first rejects a due-date change, then rewrites the five
non-due-date columns on every occurrence of the series with
`due_date >= target` (no filter on `deleted`), then sets the series'
`deletedFromDate` to the day after the target's due date — when the target's
stored due date does not parse, `formatISO` throws after the occurrence
update and before the `Bill` update (status 500). -/
def putBill (db : DB) (oid : String) (p : Patch) (scope : Scope) :
    Except Nat Unit × DB :=
  match db.occs.find? (fun o => o.id == oid) with
  | Option.none => (Except.error 404, db)
  | some ex =>
    let uf := resolveFields p ex
    match scope with
    | Scope.thisOcc =>
      if db.occs.any (fun q =>
          !(q.id == ex.id) && q.bill_id == ex.bill_id && q.due_date == uf.due_date) then
        (Except.error (if msgHasDupName sqliteUniqueMsg then 409 else 500), db)
      else
        (Except.ok (), { db with occs := db.occs.map (fun q =>
          if q.id == oid then
            { q with
              name := uf.name
              amount := uf.amount
              due_date := uf.due_date
              is_paid := uf.is_paid
              paid_date := uf.paid_date
              status := uf.status }
          else q) })
    | Scope.future =>
      if badDueChange p ex then (Except.error 400, db)
      else
        let occs2 := db.occs.map (fun q =>
          if q.bill_id == ex.bill_id && strLe ex.due_date q.due_date then
            { q with
              name := uf.name
              amount := uf.amount
              is_paid := uf.is_paid
              paid_date := uf.paid_date
              status := uf.status }
          else q)
        match parseDate ex.due_date with
        | Option.none => (Except.error 500, { db with occs := occs2 })
        | some dt =>
          let ndfd := formatDate (addDaysN dt 1)
          (Except.ok (), { db with
            occs := occs2
            bills := db.bills.map (fun b =>
              if b.id == ex.bill_id then { b with deletedFromDate := some ndfd } else b) })

/-- DELETE /api/bills/:id: look up the occurrence. Scope `this` sets
`deleted = 1` on that row. Scope `future` sets `deleted = 1` on every
occurrence of the series with `due_date >= target` (no filter on `deleted`)
and then sets the series' `deletedFromDate` to the day after the target's
due date (an unparseable stored due date makes `formatISO` throw after the
occurrence update, as in the update handler). -/
def deleteBill (db : DB) (oid : String) (scope : Scope) :
    Except Nat Unit × DB :=
  match db.occs.find? (fun o => o.id == oid) with
  | Option.none => (Except.error 404, db)
  | some ex =>
    match scope with
    | Scope.thisOcc =>
      (Except.ok (), { db with occs := db.occs.map (fun q =>
        if q.id == oid then { q with deleted := true } else q) })
    | Scope.future =>
      let occs2 := db.occs.map (fun q =>
        if q.bill_id == ex.bill_id && strLe ex.due_date q.due_date then
          { q with deleted := true }
        else q)
      match parseDate ex.due_date with
      | Option.none => (Except.error 500, { db with occs := occs2 })
      | some dt =>
        let ndfd := formatDate (addDaysN dt 1)
        (Except.ok (), { db with
          occs := occs2
          bills := db.bills.map (fun b =>
            if b.id == ex.bill_id then { b with deletedFromDate := some ndfd } else b) })

/-- The storage states reachable through the bill routes, starting from the
empty database. -/
inductive Reachable : DB → Prop where
  | empty : Reachable ⟨[], []⟩
  | post (db : DB) (nm : String) (amount : Int) (dueDate : String)
      (recurrence : Recurrence) (billId : String) (ids : Nat → String) :
      Reachable db → Reachable (postBill db nm amount dueDate recurrence billId ids).2
  | window (db : DB) (month : String) (ids : Nat → String) :
      Reachable db → Reachable (getBills db month ids).2
  | update (db : DB) (oid : String) (p : Patch) (scope : Scope) :
      Reachable db → Reachable (putBill db oid p scope).2
  | remove (db : DB) (oid : String) (scope : Scope) :
      Reachable db → Reachable (deleteBill db oid scope).2

/-- Failure mode of a single occurrence insert: the engine rejects the row
on a constraint violation (DuplicateKey in the spec's taxonomy). -/
inductive InsErr
  | duplicateKey
deriving DecidableEq, Repr

/-- `OccurrenceStore.insert`: a single occurrence INSERT against the schema
of schema.sql, which fails precisely when the primary key or the
`UNIQUE (bill_id, due_date)` constraint — both ranging over every stored
row, deleted or not — rejects the new row. -/
def occInsert (occs : List Occ) (o : Occ) : Except InsErr (List Occ) :=
  if occConflict occs o then Except.error InsErr.duplicateKey
  else Except.ok (occs ++ [o])

/-- The error of a single insert, `Option.none` on success. -/
def insRes : Except InsErr (List Occ) → Option InsErr
  | Except.error e => some e
  | Except.ok _ => Option.none

/-! Concrete fixtures used by counterexamples and witnesses. -/

/-- The response status of a request, `Option.none` on success. -/
def reqCode {α : Type} : Except Nat α → Option Nat
  | Except.error n => some n
  | Except.ok _ => Option.none

/-- An id supply standing for uuidv4 during one request. -/
def idsA : Nat → String := fun k => "a-" ++ toString k

/-- A second id supply, for a later request (uuidv4 never repeats). -/
def idsB : Nat → String := fun k => "b-" ++ toString k

/-- A monthly series anchored 2024-01-15 (spec Scenario A). -/
def billA : Bill :=
  { id := "b1", name := "rent", amount := 100, dueDate := "2024-01-15",
    recurrence := Recurrence.monthly, skipped := false, deletedFromDate := Option.none }

/-- A monthly series anchored at a month end, 2024-01-31. -/
def billJan31 : Bill := { billA with dueDate := "2024-01-31" }

/-- A non-recurring series anchored 2024-03-10. -/
def billN : Bill := { billA with recurrence := Recurrence.none, dueDate := "2024-03-10" }

/-- A weekly series anchored 2024-03-01. -/
def billW : Bill :=
  { id := "b1", name := "water", amount := 5, dueDate := "2024-03-01",
    recurrence := Recurrence.weekly, skipped := false, deletedFromDate := Option.none }

/-- A second, non-recurring series anchored 2024-03-10. -/
def billN2 : Bill :=
  { id := "b2", name := "tax", amount := 7, dueDate := "2024-03-10",
    recurrence := Recurrence.none, skipped := false, deletedFromDate := Option.none }

/-- A soft-deleted occurrence of series b1 due 2024-03-08. -/
def delRow : Occ := { mkOcc billW "d0" "2024-03-08" with deleted := true }

/-- Store holding only the weekly series and its soft-deleted row. -/
def dbW : DB := { bills := [billW], occs := [delRow] }

/-- Store holding both series and the soft-deleted row. -/
def db0 : DB := { bills := [billW, billN2], occs := [delRow] }

/-- The target occurrence of the split-edit fixtures (due 2024-03-10). -/
def tgt : Occ := mkOcc billA "t1" "2024-03-10"

/-- A later, soft-deleted occurrence of the same series (due 2024-04-10). -/
def lateDel : Occ := { mkOcc billA "t2" "2024-04-10" with deleted := true, name := "old" }

/-- An earlier occurrence of the same series (due 2024-02-10). -/
def earlier : Occ := mkOcc billA "t0" "2024-02-10"

/-- Store for the split-edit fixtures. -/
def dbU : DB := { bills := [billA], occs := [earlier, tgt, lateDel] }

/-- A patch renaming the occurrence, all other fields omitted. -/
def pName : Patch :=
  { name := some "new", amount := Option.none, dueDate := Option.none,
    is_paid := Option.none, paid_date := Option.none, status := Option.none }

/-- A patch carrying a due-date change. -/
def pDue : Patch := { pName with name := Option.none, dueDate := some "2024-05-01" }

/-! Arithmetic facts about the embedded date functions. -/

lemma daysInMonth_pos (y m : Nat) : 1 ≤ daysInMonth y m := by
  unfold daysInMonth
  split
  · split <;> omega
  · split <;> omega

lemma parseDate_valid {s : String} {d : Date} (h : parseDate s = some d) : d.valid := by
  unfold parseDate at h
  repeat' split at h
  all_goals simp_all [Date.valid]
  subst h
  simp_all

lemma addMonthsClamped_valid (d : Date) (hv : d.valid) (n : Nat) :
    (addMonthsClamped d n).valid := by
  obtain ⟨h1, h2, h3, h4⟩ := hv
  have hle := daysInMonth_pos ((d.monthIdx + n) / 12) ((d.monthIdx + n) % 12 + 1)
  show 1 ≤ (d.monthIdx + n) % 12 + 1 ∧ (d.monthIdx + n) % 12 + 1 ≤ 12 ∧
      1 ≤ min d.day (daysInMonth ((d.monthIdx + n) / 12) ((d.monthIdx + n) % 12 + 1)) ∧
      min d.day (daysInMonth ((d.monthIdx + n) / 12) ((d.monthIdx + n) % 12 + 1)) ≤
        daysInMonth ((d.monthIdx + n) / 12) ((d.monthIdx + n) % 12 + 1)
  exact ⟨by omega, by omega, Nat.le_min.mpr ⟨h3, hle⟩, Nat.min_le_right _ _⟩

lemma addMonthsClamped_monthIdx (d : Date) (n : Nat) :
    (addMonthsClamped d n).monthIdx = d.monthIdx + n := by
  simp only [addMonthsClamped, Date.monthIdx]
  omega

lemma addMonthsClamped_day_le (d : Date) (n : Nat) :
    (addMonthsClamped d n).day ≤ d.day := by
  simp only [addMonthsClamped]
  exact Nat.min_le_left _ _

lemma addMonthsClamped_zero (d : Date) (hv : d.valid) : addMonthsClamped d 0 = d := by
  obtain ⟨h1, h2, h3, h4⟩ := hv
  have hy : (d.monthIdx + 0) / 12 = d.year := by simp only [Date.monthIdx]; omega
  have hm : (d.monthIdx + 0) % 12 + 1 = d.month := by simp only [Date.monthIdx]; omega
  simp only [addMonthsClamped, hy, hm]
  cases d with
  | mk y m dd =>
    simp only at h4 ⊢
    rw [Nat.min_eq_left h4]

lemma dateLt_eq_true_iff (a b : Date) :
    dateLt a b = true ↔
      a.year < b.year ∨ (a.year = b.year ∧
        (a.month < b.month ∨ (a.month = b.month ∧ a.day < b.day))) := by
  simp [dateLt]

lemma dateLt_irrefl (a : Date) : dateLt a a = false := by
  simp [dateLt]

lemma not_dateLt_addMonths_self (a : Date) (hv : a.valid) (n : Nat) :
    dateLt (addMonthsClamped a n) a = false := by
  cases n with
  | zero => rw [addMonthsClamped_zero a hv]; exact dateLt_irrefl a
  | succ k =>
    rw [Bool.eq_false_iff]
    intro hlt
    rw [dateLt_eq_true_iff] at hlt
    obtain ⟨h1, h2, h3, h4⟩ := hv
    have hidx : a.monthIdx = a.year * 12 + (a.month - 1) := rfl
    rcases hlt with hy | ⟨hy, hm | ⟨hm, hd⟩⟩
    · have hy2 : (a.monthIdx + (k + 1)) / 12 < a.year := hy
      omega
    · have hy2 : (a.monthIdx + (k + 1)) / 12 = a.year := hy
      have hm2 : (a.monthIdx + (k + 1)) % 12 + 1 < a.month := hm
      omega
    · have hy2 : (a.monthIdx + (k + 1)) / 12 = a.year := hy
      have hm2 : (a.monthIdx + (k + 1)) % 12 + 1 = a.month := hm
      omega

/-! Counterexamples and code-bug evaluations on the fixtures. -/

/-- C2: the claim is false: a future-scope update does not leave soft-deleted
occurrences unchanged. In `dbU`, the occurrence `t2` of the target's series
is soft-deleted, lies after the target's due date, and carried the name
`old`; the future-scope rename writes `new` into it. -/
theorem C2_counterexample :
    (dbU.occs.get? 2).map Occ.deleted = some true ∧
    (dbU.occs.get? 2).map Occ.name = some "old" ∧
    strLe tgt.due_date "2024-04-10" = true ∧
    ((putBill dbU "t1" pName Scope.future).2.occs.get? 2).map Occ.name = some "new" := by
  decide

/-- C4: the claim is false: for the monthly series anchored 2024-01-31 with
horizon 3 the generator emits 2024-03-29 and 2024-04-29 (iterated
month-stepping keeps the clamped day 29), not the anchor-day dates
2024-03-31 and 2024-04-30 the claim predicts. -/
theorem C4_counterexample :
    (generateOccurrences billJan31 3 [] idsA 0).map Occ.due_date =
      ["2024-01-31", "2024-02-29", "2024-03-29", "2024-04-29"] ∧
    ¬ ((generateOccurrences billJan31 3 [] idsA 0).map Occ.due_date =
      (List.range 4).map (fun i => formatDate (addMonthsClamped ⟨2024, 1, 31⟩ i))) := by
  decide

/-- C5: during materialization of 2024-03 over a store holding a soft-deleted
occurrence of the weekly series at 2024-03-08, the insert of the regenerated
2024-03-08 candidate violates the schema uniqueness constraint; the engine
message does not contain the string the handler tests for, so the violation
is rethrown: the batch aborts after the 2024-03-01 insert (2024-03-15/22/29
are never attempted) and the request fails with 500. -/
theorem C5_bug_eval :
    msgHasDupName sqliteUniqueMsg = false ∧
    reqCode (getBills dbW "2024-03" idsA).1 = some 500 ∧
    (getBills dbW "2024-03" idsA).2.occs.map (fun o => (o.bill_id, o.due_date, o.deleted)) =
      [("b1", "2024-03-08", true), ("b1", "2024-03-01", false)] := by
  decide

/-- C6: the claim is false: the generator queries the occurrence store, so
the same (series, horizon) input yields different outputs over two stores
that differ in a non-deleted occurrence at the anchor date. -/
theorem C6_counterexample :
    (generateOccurrences billN 12 [] idsA 0).length = 1 ∧
    (generateOccurrences billN 12 [mkOcc billN "x" "2024-03-10"] idsA 0).length = 0 := by
  decide

/-- C7: materializing 2024-03 twice over `db0` is not idempotent: the first
run aborts with 500 on the uniqueness violation at (b1, 2024-03-08) after
persisting only (b1, 2024-03-01); the second run, seeing b1 already covered,
persists (b2, 2024-03-10), so the persisted occurrence set changes between
the two runs. -/
theorem C7_bug_eval :
    reqCode (getBills db0 "2024-03" idsA).1 = some 500 ∧
    (getBills db0 "2024-03" idsA).2.occs.map (fun o => (o.bill_id, o.due_date)) =
      [("b1", "2024-03-08"), ("b1", "2024-03-01")] ∧
    reqCode (getBills (getBills db0 "2024-03" idsA).2 "2024-03" idsB).1 = Option.none ∧
    (getBills (getBills db0 "2024-03" idsA).2 "2024-03" idsB).2.occs.map
        (fun o => (o.bill_id, o.due_date)) =
      [("b1", "2024-03-08"), ("b1", "2024-03-01"), ("b2", "2024-03-10")] := by
  decide

/-- C8: the claim is false: the schema constraint `UNIQUE (bill_id, due_date)`
ranges over soft-deleted rows as well, so inserting a fresh-id occurrence at
the (series id, due date) of the soft-deleted row `lateDel` fails with
DuplicateKey even though no non-deleted occurrence exists at that key. -/
theorem C8_counterexample :
    lateDel.deleted = true ∧
    activeAt [lateDel] "b1" "2024-04-10" = false ∧
    insRes (occInsert [lateDel] (mkOcc billA "fresh" "2024-04-10")) = some InsErr.duplicateKey := by
  decide

/-- C9: the claim is false: over a store already holding a non-deleted
occurrence of the series at its anchor date, generation for a
recurrence-none series produces no occurrence at all, not exactly one. -/
theorem C9_counterexample :
    billN.recurrence = Recurrence.none ∧
    generateOccurrences billN 7 [mkOcc billN "y" "2024-03-10"] idsB 0 = [] := by
  decide

/-! General theorems about the generator. -/

lemma genLoop_congr (b : Bill) (ids : Nat → String) (o1 o2 : List Occ) (endD : Date)
    (hag : ∀ d, activeAt o1 b.id d = activeAt o2 b.id d) :
    ∀ fuel cur k, genLoop b ids o1 endD fuel cur k = genLoop b ids o2 endD fuel cur k := by
  intro fuel
  induction fuel with
  | zero => intro cur k; rfl
  | succ n ih =>
    intro cur k
    simp only [genLoop, hag]
    cases b.recurrence <;> simp [ih]

/-- C6 (amended): the generator performs no persistence (its only storage
interaction is the read probe for a non-deleted occurrence at (bill id, due
date)), but it does duplicate-check against storage; its output depends on
the occurrence store only through that probe, so two stores agreeing on
which (bill id, due date) pairs hold a non-deleted occurrence yield
identical output for the same (series, horizon, id-supply) input. -/
theorem generateOccurrences_store_congr (b : Bill) (h k0 : Nat) (ids : Nat → String)
    (o1 o2 : List Occ) (hag : ∀ d, activeAt o1 b.id d = activeAt o2 b.id d) :
    generateOccurrences b h o1 ids k0 = generateOccurrences b h o2 ids k0 := by
  unfold generateOccurrences
  cases hp : parseDate b.dueDate with
  | none => rfl
  | some a => exact genLoop_congr b ids o1 o2 _ hag _ a k0

/-- Witness for C6 (amended): the empty store and a store holding only a
soft-deleted row agree on every probe, so generation coincides on them. -/
theorem generateOccurrences_store_congr_witness :
    generateOccurrences billW 2 [] idsA 0 = generateOccurrences billW 2 [delRow] idsA 0 :=
  generateOccurrences_store_congr billW 2 0 idsA [] [delRow]
    (fun d => by simp [activeAt, delRow, mkOcc, billW])

/-- One unrolling of the generator loop for a non-recurring series. -/
lemma genLoop_none_step (b : Bill) (ids : Nat → String) (occs : List Occ)
    (endD cur : Date) (k fuel : Nat) (hfuel : 0 < fuel)
    (hend : dateLt endD cur = false) (hdfd : dfdStop b cur = false)
    (hrec : b.recurrence = Recurrence.none)
    (hact : activeAt occs b.id (formatDate cur) = false) :
    genLoop b ids occs endD fuel cur k = [mkOcc b (ids k) (formatDate cur)] := by
  cases fuel with
  | zero => omega
  | succ n => simp [genLoop, hend, hdfd, hrec, hact]

/-- C9 (amended): for a series with recurrence `none` whose anchor parses,
whose deleted-from gate does not fire at the anchor, and over a store with
no non-deleted occurrence at (series id, anchor date), generation produces
exactly one occurrence, dated at the anchor, for every horizon. -/
theorem generate_none_singleton (b : Bill) (h k0 : Nat) (ids : Nat → String)
    (a : Date) (occs : List Occ)
    (hrec : b.recurrence = Recurrence.none)
    (hanchor : parseDate b.dueDate = some a)
    (hdfd : dfdStop b a = false)
    (hact : activeAt occs b.id (formatDate a) = false) :
    generateOccurrences b h occs ids k0 = [mkOcc b (ids k0) (formatDate a)] := by
  unfold generateOccurrences
  rw [hanchor]
  exact genLoop_none_step b ids occs _ a k0 _ (by omega)
    (not_dateLt_addMonths_self a (parseDate_valid hanchor) h) hdfd hrec hact

/-- Witness for C9 (amended): the non-recurring series `billN` over a store
holding only an unrelated soft-deleted row. -/
theorem generate_none_singleton_witness :
    generateOccurrences billN 5 [delRow] idsA 3 =
      [mkOcc billN (idsA 3) (formatDate ⟨2024, 3, 10⟩)] :=
  generate_none_singleton billN 5 3 idsA ⟨2024, 3, 10⟩ [delRow]
    (by decide) (by decide) (by decide) (by decide)

/-- C8 (amended): for a row with a fresh id, `OccurrenceStore.insert` fails
with DuplicateKey precisely when any stored occurrence — soft-deleted or
not — carries the same (series id, due date); in particular a soft-deleted
row at that key does make the insert fail, because the schema constraint
`UNIQUE (bill_id, due_date)` is not filtered on the deleted flag. -/
theorem occInsert_duplicateKey_iff (occs : List Occ) (o : Occ)
    (hid : ∀ p ∈ occs, p.id ≠ o.id) :
    insRes (occInsert occs o) = some InsErr.duplicateKey ↔
      ∃ p ∈ occs, p.bill_id = o.bill_id ∧ p.due_date = o.due_date := by
  have hiff : occConflict occs o = true ↔
      ∃ p ∈ occs, p.bill_id = o.bill_id ∧ p.due_date = o.due_date := by
    simp only [occConflict, List.any_eq_true, Bool.or_eq_true, Bool.and_eq_true, beq_iff_eq]
    constructor
    · rintro ⟨p, hp, hpid | ⟨hb, hd⟩⟩
      · exact absurd hpid (hid p hp)
      · exact ⟨p, hp, hb, hd⟩
    · rintro ⟨p, hp, hb, hd⟩
      exact ⟨p, hp, Or.inr ⟨hb, hd⟩⟩
  unfold occInsert
  by_cases hc : occConflict occs o = true
  · simp only [hc, if_true, insRes]
    simpa using hiff.mp hc
  · simp only [Bool.not_eq_true] at hc
    simp only [hc, Bool.false_eq_true, if_false, insRes]
    constructor
    · intro hfalse
      exact absurd hfalse (by simp)
    · intro hex
      exact absurd (hiff.mpr hex) (by simp [hc])

/-- Witness for C8 (amended): a fresh-id insert colliding with the active
row `earlier` fails with DuplicateKey. -/
theorem occInsert_duplicateKey_iff_witness :
    insRes (occInsert [earlier] (mkOcc billA "w8" "2024-02-10")) = some InsErr.duplicateKey :=
  (occInsert_duplicateKey_iff [earlier] (mkOcc billA "w8" "2024-02-10")
    (by decide)).mpr ⟨earlier, by decide, by decide, by decide⟩

/-! The row transformations a future-scope update and delete apply. -/

/-- The per-row effect of the future-scope UPDATE: rows of the target's
series with due date at or after the target's (deleted rows included, since
the SQL has no `deleted` filter) receive the five merged field values. -/
def futureFields (p : Patch) (ex : Occ) (q : Occ) : Occ :=
  if q.bill_id == ex.bill_id && strLe ex.due_date q.due_date then
    { q with
      name := (resolveFields p ex).name
      amount := (resolveFields p ex).amount
      is_paid := (resolveFields p ex).is_paid
      paid_date := (resolveFields p ex).paid_date
      status := (resolveFields p ex).status }
  else q

lemma putBill_future_occs (db : DB) (oid : String) (p : Patch) (ex : Occ)
    (hfind : db.occs.find? (fun o => o.id == oid) = some ex)
    (hdc : badDueChange p ex = false) :
    (putBill db oid p Scope.future).2.occs = db.occs.map (futureFields p ex) := by
  unfold putBill
  rw [hfind]
  dsimp only []
  simp only [hdc, Bool.false_eq_true, if_false]
  cases parseDate ex.due_date <;> rfl

lemma deleteBill_future_occs (db : DB) (oid : String) (ex : Occ)
    (hfind : db.occs.find? (fun o => o.id == oid) = some ex) :
    (deleteBill db oid Scope.future).2.occs = db.occs.map (fun q =>
      if q.bill_id == ex.bill_id && strLe ex.due_date q.due_date then
        { q with deleted := true }
      else q) := by
  unfold deleteBill
  rw [hfind]
  dsimp only []
  cases parseDate ex.due_date <;> rfl

/-- C2 (amended): a future-scope update writes its five fields to exactly
the occurrences — soft-deleted or not — of the target's series with due
date ≥ the target's, and leaves every other row unchanged; a future-scope
delete changes exactly the non-deleted occurrences of that suffix (an
already-deleted row is rewritten to an identical value, so only the
non-deleted matched rows change), and earlier or foreign rows are
untouched. -/
theorem future_scope_row_effects (db : DB) (oid : String) (p : Patch) (ex : Occ)
    (hfind : db.occs.find? (fun o => o.id == oid) = some ex)
    (hdc : badDueChange p ex = false) :
    (putBill db oid p Scope.future).2.occs = db.occs.map (futureFields p ex) ∧
    (∀ q, (q.bill_id == ex.bill_id && strLe ex.due_date q.due_date) = false →
      futureFields p ex q = q) ∧
    (deleteBill db oid Scope.future).2.occs = db.occs.map (fun q =>
      if q.bill_id == ex.bill_id && strLe ex.due_date q.due_date && !q.deleted then
        { q with deleted := true }
      else q) := by
  refine ⟨putBill_future_occs db oid p ex hfind hdc, ?_, ?_⟩
  · intro q hq
    unfold futureFields
    rw [hq]
    rfl
  · rw [deleteBill_future_occs db oid ex hfind]
    apply List.map_congr_left
    intro q _
    by_cases h1 : (q.bill_id == ex.bill_id && strLe ex.due_date q.due_date) = true
    · by_cases h2 : q.deleted = true
      · simp only [h1, h2, Bool.not_true, Bool.and_false, Bool.false_eq_true, if_false,
          Bool.true_and, if_true]
        cases q
        simp_all
      · simp only [Bool.not_eq_true] at h2
        simp [h1, h2]
    · simp only [Bool.not_eq_true] at h1
      simp [h1]

/-- Witness for C2 (amended): the rename on the `dbU` fixtures. -/
theorem future_scope_row_effects_witness :
    (putBill dbU "t1" pName Scope.future).2.occs = dbU.occs.map (futureFields pName tgt) ∧
    (∀ q, (q.bill_id == tgt.bill_id && strLe tgt.due_date q.due_date) = false →
      futureFields pName tgt q = q) ∧
    (deleteBill dbU "t1" Scope.future).2.occs = dbU.occs.map (fun q =>
      if q.bill_id == tgt.bill_id && strLe tgt.due_date q.due_date && !q.deleted then
        { q with deleted := true }
      else q) :=
  future_scope_row_effects dbU "t1" pName tgt (by decide) (by decide)

/-- C3: a future-scope update never changes any occurrence's due date (on
every path, including failures); a request whose body carries a due date
different from the target's is rejected with 400 and no write at all; and
on success the owning series' deleted-from boundary is set to exactly the
target's due date plus one day. -/
theorem future_update_due_date_policy (db : DB) (oid : String) (p : Patch) :
    ((putBill db oid p Scope.future).2.occs.map Occ.due_date = db.occs.map Occ.due_date)
    ∧ (∀ ex, db.occs.find? (fun o => o.id == oid) = some ex →
        ∀ d, p.dueDate = some d → d ≠ ex.due_date →
          putBill db oid p Scope.future = (Except.error 400, db))
    ∧ (∀ ex, db.occs.find? (fun o => o.id == oid) = some ex →
        (putBill db oid p Scope.future).1 = Except.ok () →
        ∃ dt, parseDate ex.due_date = some dt ∧
          ∀ b ∈ (putBill db oid p Scope.future).2.bills, b.id = ex.bill_id →
            b.deletedFromDate = some (formatDate (addDaysN dt 1))) := by
  refine ⟨?_, ?_, ?_⟩
  · unfold putBill
    cases hfind : db.occs.find? (fun o => o.id == oid) with
    | none => rfl
    | some ex =>
      dsimp only []
      by_cases hdc : badDueChange p ex = true
      · simp [hdc]
      · simp only [Bool.not_eq_true] at hdc
        simp only [hdc, Bool.false_eq_true, if_false]
        cases parseDate ex.due_date <;>
          · simp only [List.map_map]
            apply List.map_congr_left
            intro q _
            by_cases hq : (q.bill_id == ex.bill_id && strLe ex.due_date q.due_date) = true <;>
              simp [hq, Function.comp]
  · intro ex hfind d hd hne
    unfold putBill
    rw [hfind]
    dsimp only []
    have hdc : badDueChange p ex = true := by
      unfold badDueChange
      rw [hd]
      simpa using hne
    simp [hdc]
  · intro ex hfind hok
    unfold putBill at hok ⊢
    rw [hfind] at hok ⊢
    dsimp only [] at hok ⊢
    by_cases hdc : badDueChange p ex = true
    · rw [if_pos hdc] at hok
      exact absurd hok (by simp)
    · simp only [Bool.not_eq_true] at hdc
      simp only [hdc, Bool.false_eq_true, if_false] at hok ⊢
      cases hp : parseDate ex.due_date with
      | none =>
        rw [hp] at hok
        simp at hok
      | some dt =>
        rw [hp] at hok
        refine ⟨dt, rfl, ?_⟩
        dsimp only []
        intro b hb hbid
        simp only [List.mem_map] at hb
        obtain ⟨b0, _, rfl⟩ := hb
        by_cases hb0 : (b0.id == ex.bill_id) = true
        · simp [hb0]
        · rw [if_neg (by simpa using hb0)] at hbid ⊢
          exact absurd hbid (by simpa using hb0)

/-- Witness for C3: on the `dbU` fixtures, a future-scope due-date change is
rejected with no write, and the successful rename sets the boundary to
2024-03-11 (the target due date 2024-03-10 plus one day). -/
theorem future_update_due_date_policy_witness :
    putBill dbU "t1" pDue Scope.future = (Except.error 400, dbU) ∧
    (∃ dt, parseDate tgt.due_date = some dt ∧
      ∀ b ∈ (putBill dbU "t1" pName Scope.future).2.bills, b.id = tgt.bill_id →
        b.deletedFromDate = some (formatDate (addDaysN dt 1))) :=
  ⟨(future_update_due_date_policy dbU "t1" pDue).2.1 tgt (by decide) "2024-05-01"
      (by decide) (by decide),
    (future_update_due_date_policy dbU "t1" pName).2.2 tgt (by decide) (by rfl)⟩

/-- C10: in a future-scope update every one of the five fields name, amount,
paid flag, paid date and status is written to every affected occurrence,
an omitted field taking the target occurrence's current value — so whatever
an affected row previously held in those fields is replaced by the merged
target values. -/
theorem future_update_writes_all_fields (db : DB) (oid : String) (p : Patch) (ex : Occ)
    (hfind : db.occs.find? (fun o => o.id == oid) = some ex)
    (hdc : badDueChange p ex = false) :
    ∀ i (hi : i < db.occs.length),
      db.occs[i].bill_id = ex.bill_id →
      strLe ex.due_date db.occs[i].due_date = true →
      (putBill db oid p Scope.future).2.occs[i]? = some
        { db.occs[i] with
          name := p.name.getD ex.name
          amount := p.amount.getD ex.amount
          is_paid := p.is_paid.getD ex.is_paid
          paid_date := p.paid_date.getD ex.paid_date
          status := p.status.getD ex.status } := by
  intro i hi hbid hdue
  rw [putBill_future_occs db oid p ex hfind hdc]
  rw [List.getElem?_map]
  rw [List.getElem?_eq_getElem hi]
  dsimp only [Option.map]
  unfold futureFields
  rw [if_pos (by simp [hbid, hdue])]
  rfl

/-- Witness for C10: in the `dbU` rename, the suffix row at index 1 (the
target itself) receives the merged fields — the omitted amount, paid flag,
paid date and status keep the target's values while the name is replaced. -/
theorem future_update_writes_all_fields_witness :
    (putBill dbU "t1" pName Scope.future).2.occs[1]? = some
      { dbU.occs[1] with
        name := pName.name.getD tgt.name
        amount := pName.amount.getD tgt.amount
        is_paid := pName.is_paid.getD tgt.is_paid
        paid_date := pName.paid_date.getD tgt.paid_date
        status := pName.status.getD tgt.status } :=
  future_update_writes_all_fields dbU "t1" pName tgt (by decide) (by decide)
    1 (by decide) (by decide) (by decide)

/-! The monthly stepping the generator actually performs: iterated
single-month addition, under which a clamped day persists. -/

/-- `n`-fold iteration of date-fns `addMonths · 1` (the generator's monthly
cursor step). -/
def iterMonths (a : Date) : Nat → Date
  | 0 => a
  | n + 1 => addMonthsClamped (iterMonths a n) 1

lemma iterMonths_monthIdx (a : Date) (n : Nat) :
    (iterMonths a n).monthIdx = a.monthIdx + n := by
  induction n with
  | zero => rfl
  | succ m ih =>
    rw [iterMonths, addMonthsClamped_monthIdx, ih]
    omega

lemma iterMonths_valid (a : Date) (hv : a.valid) (n : Nat) :
    (iterMonths a n).valid := by
  induction n with
  | zero => exact hv
  | succ m ih => exact addMonthsClamped_valid _ ih 1

lemma iterMonths_day_le (a : Date) (n : Nat) :
    (iterMonths a n).day ≤ a.day := by
  induction n with
  | zero => exact Nat.le_refl _
  | succ m ih => exact Nat.le_trans (addMonthsClamped_day_le _ 1) ih

/-- While the step count stays within the horizon, the cursor has not passed
`addMonths anchor horizon`. -/
lemma not_dateLt_horizon (a : Date) (hv : a.valid) (h j : Nat) (hj : j ≤ h) :
    dateLt (addMonthsClamped a h) (iterMonths a j) = false := by
  obtain ⟨e1, e2, e3, e4⟩ := addMonthsClamped_valid a hv h
  obtain ⟨c1, c2, c3, c4⟩ := iterMonths_valid a hv j
  have hiE := addMonthsClamped_monthIdx a h
  have hiC := iterMonths_monthIdx a j
  have hEidx : (addMonthsClamped a h).monthIdx =
      (addMonthsClamped a h).year * 12 + ((addMonthsClamped a h).month - 1) := rfl
  have hCidx : (iterMonths a j).monthIdx =
      (iterMonths a j).year * 12 + ((iterMonths a j).month - 1) := rfl
  rw [Bool.eq_false_iff]
  intro hlt
  rw [dateLt_eq_true_iff] at hlt
  rcases Nat.lt_or_ge j h with hjh | hjh
  · rcases hlt with hy | ⟨hy, hm | ⟨hm, hd⟩⟩ <;> omega
  · have hjeq : j = h := Nat.le_antisymm hj hjh
    subst hjeq
    rcases hlt with hy | ⟨hy, hm | ⟨hm, hd⟩⟩
    · omega
    · omega
    · have hyy : (iterMonths a j).year = (addMonthsClamped a j).year := by omega
      have hmm : (iterMonths a j).month = (addMonthsClamped a j).month := by omega
      rw [hyy, hmm] at c4
      have hdayE : (addMonthsClamped a j).day =
          min a.day (daysInMonth (addMonthsClamped a j).year (addMonthsClamped a j).month) := rfl
      have hdayC := iterMonths_day_le a j
      have : (iterMonths a j).day ≤ (addMonthsClamped a j).day := by
        rw [hdayE]
        exact Nat.le_min.mpr ⟨hdayC, c4⟩
      omega

/-- One step past the horizon, the cursor has passed `addMonths anchor horizon`. -/
lemma dateLt_horizon_succ (a : Date) (hv : a.valid) (h : Nat) :
    dateLt (addMonthsClamped a h) (iterMonths a (h + 1)) = true := by
  obtain ⟨e1, e2, e3, e4⟩ := addMonthsClamped_valid a hv h
  obtain ⟨c1, c2, c3, c4⟩ := iterMonths_valid a hv (h + 1)
  have hiE := addMonthsClamped_monthIdx a h
  have hiC := iterMonths_monthIdx a (h + 1)
  have hEidx : (addMonthsClamped a h).monthIdx =
      (addMonthsClamped a h).year * 12 + ((addMonthsClamped a h).month - 1) := rfl
  have hCidx : (iterMonths a (h + 1)).monthIdx =
      (iterMonths a (h + 1)).year * 12 + ((iterMonths a (h + 1)).month - 1) := rfl
  rw [dateLt_eq_true_iff]
  omega

/-- The run of the generator loop for a monthly series over a store with no
active occurrence of the series: starting `cnt` steps before the horizon
boundary, it emits one candidate per remaining step. -/
lemma genLoop_monthly_run (b : Bill) (ids : Nat → String) (occs : List Occ) (a : Date)
    (hv : a.valid) (hrec : b.recurrence = Recurrence.monthly)
    (hdfd : b.deletedFromDate = Option.none)
    (hact : ∀ d, activeAt occs b.id d = false) (h : Nat) :
    ∀ cnt j k fuel, j + cnt = h + 1 → cnt ≤ fuel →
      genLoop b ids occs (addMonthsClamped a h) fuel (iterMonths a j) k =
        (List.range cnt).map
          (fun t => mkOcc b (ids (k + t)) (formatDate (iterMonths a (j + t)))) := by
  intro cnt
  induction cnt with
  | zero =>
    intro j k fuel hsum hfuel
    have hj : j = h + 1 := by omega
    subst hj
    cases fuel with
    | zero => rfl
    | succ f => simp [genLoop, dateLt_horizon_succ a hv h]
  | succ cnt ih =>
    intro j k fuel hsum hfuel
    have hj : j ≤ h := by omega
    cases fuel with
    | zero => omega
    | succ f =>
      have hstop := not_dateLt_horizon a hv h j hj
      have hdstop : dfdStop b (iterMonths a j) = false := by simp [dfdStop, hdfd]
      simp only [genLoop, hstop, hdstop, hrec, hact, Bool.false_eq_true, if_false,
        Bool.not_false, if_true]
      have hshift : addMonthsClamped (iterMonths a j) 1 = iterMonths a (j + 1) := rfl
      rw [hshift, ih (j + 1) (k + 1) f (by omega) (by omega)]
      have hhead : mkOcc b (ids (k + 0)) (formatDate (iterMonths a (j + 0))) =
          mkOcc b (ids k) (formatDate (iterMonths a j)) := by simp
      have htail : (List.range cnt).map
            ((fun t => mkOcc b (ids (k + t)) (formatDate (iterMonths a (j + t)))) ∘ Nat.succ) =
          (List.range cnt).map
            (fun t => mkOcc b (ids (k + 1 + t)) (formatDate (iterMonths a (j + 1 + t)))) := by
        apply List.map_congr_left
        intro t _
        have h1 : k + (t + 1) = k + 1 + t := by omega
        have h2 : j + (t + 1) = j + 1 + t := by omega
        simp [Function.comp, h1, h2]
      rw [List.range_succ_eq_map, List.map_cons, List.map_map, hhead, htail]

/-- C4 (amended): for a monthly series with a parseable anchor, no
deleted-from boundary and a store holding no non-deleted occurrence of the
series, the generator emits exactly horizon+1 occurrences whose due dates
are the iterated single-month steps from the anchor — each date is the
previous one plus one calendar month with the day clamped to the target
month's length, so a clamp persists into later months — and the claimed
Scenario A (anchor 2024-01-15, horizon 3) holds. -/
theorem generate_monthly_dates (b : Bill) (h k0 : Nat) (ids : Nat → String) (a : Date)
    (occs : List Occ)
    (hrec : b.recurrence = Recurrence.monthly)
    (hdfd : b.deletedFromDate = Option.none)
    (hanchor : parseDate b.dueDate = some a)
    (hact : ∀ d, activeAt occs b.id d = false) :
    (generateOccurrences b h occs ids k0).map Occ.due_date =
      (List.range (h + 1)).map (fun i => formatDate (iterMonths a i)) ∧
    (generateOccurrences billA 3 [] idsA 0).map Occ.due_date =
      ["2024-01-15", "2024-02-15", "2024-03-15", "2024-04-15"] := by
  constructor
  · unfold generateOccurrences
    rw [hanchor]
    dsimp only []
    have hrun := genLoop_monthly_run b ids occs a (parseDate_valid hanchor) hrec hdfd hact h
      (h + 1) 0 k0 (400 * (h + 2)) (by omega) (by omega)
    rw [show iterMonths a 0 = a from rfl] at hrun
    rw [hrun]
    rw [List.map_map]
    apply List.map_congr_left
    intro t _
    simp [Function.comp, mkOcc]
  · decide

/-- Witness for C4 (amended): Scenario A instantiated, with the iterated
steps evaluated from the anchor 2024-01-15. -/
theorem generate_monthly_dates_witness :
    (generateOccurrences billA 3 [] idsA 0).map Occ.due_date =
      (List.range 4).map (fun i => formatDate (iterMonths ⟨2024, 1, 15⟩ i)) :=
  (generate_monthly_dates billA 3 0 idsA ⟨2024, 1, 15⟩ []
    (by decide) (by decide) (by decide) (fun d => rfl)).1

/-! The storage uniqueness invariant and its preservation by every route. -/

/-- The keys the schema constrains: distinct rows differ in primary key and
in the (bill id, due date) pair. -/
def KeyRel (a b : Occ) : Prop :=
  a.id ≠ b.id ∧ ¬ (a.bill_id = b.bill_id ∧ a.due_date = b.due_date)

/-- The schema constraints hold of the occurrence table: pairwise distinct
primary keys and pairwise distinct (bill id, due date) pairs. -/
def GoodKeys (occs : List Occ) : Prop := occs.Pairwise KeyRel

/-- The claim's uniqueness property: no two non-deleted occurrences of the
same series share a due date. -/
def NoActiveDup (occs : List Occ) : Prop :=
  occs.Pairwise (fun a b => a.deleted = false → b.deleted = false →
    a.bill_id = b.bill_id → a.due_date ≠ b.due_date)

lemma keyRel_symm : Symmetric KeyRel := by
  intro a b hab
  exact ⟨fun he => hab.1 he.symm, fun ⟨hb, hd⟩ => hab.2 ⟨hb.symm, hd.symm⟩⟩

lemma goodKeys_id_inj {l : List Occ} (h : GoodKeys l) :
    ∀ x ∈ l, ∀ y ∈ l, x.id = y.id → x = y := by
  intro x hx y hy hid
  by_contra hne
  exact (h.forall keyRel_symm hx hy hne).1 hid

lemma occConflict_rel {occs : List Occ} {o : Occ} (h : occConflict occs o = false) :
    ∀ p ∈ occs, KeyRel p o := by
  intro p hp
  have hfp : (p.id == o.id || (p.bill_id == o.bill_id && p.due_date == o.due_date)) = false := by
    cases hb : (p.id == o.id || (p.bill_id == o.bill_id && p.due_date == o.due_date)) with
    | false => rfl
    | true =>
      have hany : occs.any
          (fun q => q.id == o.id || (q.bill_id == o.bill_id && q.due_date == o.due_date)) = true :=
        List.any_eq_true.mpr ⟨p, hp, hb⟩
      rw [occConflict] at h
      rw [h] at hany
      exact Bool.noConfusion hany
  constructor
  · intro he
    simp [he] at hfp
  · rintro ⟨hb, hd⟩
    simp [hb, hd] at hfp

lemma insertBatch_goodKeys (occs : List Occ) (cands : List Occ) (h : GoodKeys occs) :
    GoodKeys (insertBatch occs cands).1 := by
  induction cands generalizing occs with
  | nil => exact h
  | cons o rest ih =>
    rw [insertBatch]
    by_cases hc : occConflict occs o = true
    · rw [if_pos hc]
      split
      · exact ih occs h
      · exact h
    · simp only [Bool.not_eq_true] at hc
      rw [if_neg (by simp [hc])]
      apply ih
      rw [GoodKeys, List.pairwise_append]
      refine ⟨h, List.pairwise_singleton _ _, ?_⟩
      intro a ha b hb
      rw [List.mem_singleton] at hb
      subst hb
      exact occConflict_rel hc a ha

lemma goodKeys_map_keep (l : List Occ) (f : Occ → Occ)
    (hf : ∀ q, (f q).id = q.id ∧ (f q).bill_id = q.bill_id ∧ (f q).due_date = q.due_date)
    (h : GoodKeys l) : GoodKeys (l.map f) := by
  refine List.Pairwise.map f ?_ h
  intro a b hab
  obtain ⟨fa1, fa2, fa3⟩ := hf a
  obtain ⟨fb1, fb2, fb3⟩ := hf b
  constructor
  · rw [fa1, fb1]
    exact hab.1
  · rw [fa2, fb2, fa3, fb3]
    exact hab.2

lemma goodKeys_update_one (l : List Occ) (oid : String) (ex uf : Occ)
    (hexm : l.find? (fun o => o.id == oid) = some ex)
    (hguard : (l.any fun q =>
      !(q.id == ex.id) && q.bill_id == ex.bill_id && q.due_date == uf.due_date) = false)
    (h : GoodKeys l) :
    GoodKeys (l.map (fun q => if q.id == oid then
      { q with
        name := uf.name
        amount := uf.amount
        due_date := uf.due_date
        is_paid := uf.is_paid
        paid_date := uf.paid_date
        status := uf.status }
      else q)) := by
  have hexl : ex ∈ l := List.mem_of_find?_eq_some hexm
  have hexid : ex.id = oid := by simpa using List.find?_some hexm
  have hg : ∀ q ∈ l, q.id ≠ ex.id →
      ¬ (q.bill_id = ex.bill_id ∧ q.due_date = uf.due_date) := by
    intro q hq hne hcon
    have hqtrue :
        (!(q.id == ex.id) && q.bill_id == ex.bill_id && q.due_date == uf.due_date) = true := by
      simp [hne, hcon.1, hcon.2]
    have hany : (l.any fun q =>
        !(q.id == ex.id) && q.bill_id == ex.bill_id && q.due_date == uf.due_date) = true := by
      rw [List.any_eq_true]
      exact ⟨q, hq, hqtrue⟩
    rw [hguard] at hany
    exact Bool.noConfusion hany
  rw [GoodKeys, List.pairwise_map]
  refine List.Pairwise.imp_of_mem ?_ h
  intro a b ha hb hab
  by_cases haid : (a.id == oid) = true
  · have ha2 : a = ex := goodKeys_id_inj h a ha ex hexl (by simpa [hexid] using haid)
    by_cases hbid : (b.id == oid) = true
    · have hb2 : b = ex := goodKeys_id_inj h b hb ex hexl (by simpa [hexid] using hbid)
      exfalso
      apply hab.1
      rw [ha2, hb2]
    · rw [if_pos haid, if_neg hbid]
      refine ⟨hab.1, ?_⟩
      rintro ⟨hbill, hdue⟩
      have hbne : b.id ≠ ex.id := by
        rw [hexid]
        simpa using hbid
      refine hg b hb hbne ⟨?_, ?_⟩
      · rw [← ha2]
        exact hbill.symm
      · exact hdue.symm
  · by_cases hbid : (b.id == oid) = true
    · have hb2 : b = ex := goodKeys_id_inj h b hb ex hexl (by simpa [hexid] using hbid)
      rw [if_neg haid, if_pos hbid]
      refine ⟨hab.1, ?_⟩
      rintro ⟨hbill, hdue⟩
      have hane : a.id ≠ ex.id := by
        rw [hexid]
        simpa using haid
      refine hg a ha hane ⟨?_, hdue⟩
      rw [← hb2]
      exact hbill
    · rw [if_neg haid, if_neg hbid]
      exact hab

lemma insertBatch_fst_goodKeys {occs cands rows : List Occ} {flag : Bool}
    (heq : insertBatch occs cands = (rows, flag)) (h : GoodKeys occs) : GoodKeys rows := by
  have hik := insertBatch_goodKeys occs cands h
  rw [heq] at hik
  exact hik

lemma goodKeys_postBill (db : DB) (nm : String) (amount : Int) (dueDate : String)
    (recurrence : Recurrence) (billId : String) (ids : Nat → String)
    (h : GoodKeys db.occs) :
    GoodKeys (postBill db nm amount dueDate recurrence billId ids).2.occs := by
  unfold postBill
  split
  · exact h
  · split
    · exact h
    · split
      · exact h
      · dsimp only []
        split <;> rename_i rows heq <;> exact insertBatch_fst_goodKeys heq h

lemma goodKeys_getBills (db : DB) (month : String) (ids : Nat → String)
    (h : GoodKeys db.occs) :
    GoodKeys (getBills db month ids).2.occs := by
  unfold getBills
  split
  · exact h
  · dsimp only []
    split <;> rename_i rows heq <;> exact insertBatch_fst_goodKeys heq h

lemma goodKeys_putBill (db : DB) (oid : String) (p : Patch) (scope : Scope)
    (h : GoodKeys db.occs) :
    GoodKeys (putBill db oid p scope).2.occs := by
  unfold putBill
  cases hfind : db.occs.find? (fun o => o.id == oid) with
  | none => exact h
  | some ex =>
    dsimp only []
    cases scope with
    | thisOcc =>
      dsimp only []
      by_cases hguard : (db.occs.any fun q =>
          !(q.id == ex.id) && q.bill_id == ex.bill_id &&
            q.due_date == (resolveFields p ex).due_date) = true
      · rw [if_pos hguard]
        exact h
      · rw [if_neg hguard]
        exact goodKeys_update_one db.occs oid ex (resolveFields p ex) hfind
          (by simpa using hguard) h
    | future =>
      dsimp only []
      split
      · exact h
      · split <;>
          · refine goodKeys_map_keep db.occs _ (fun q => ?_) h
            by_cases hq : (q.bill_id == ex.bill_id && strLe ex.due_date q.due_date) = true
            · rw [if_pos hq]
              exact ⟨rfl, rfl, rfl⟩
            · rw [if_neg hq]
              exact ⟨rfl, rfl, rfl⟩

lemma goodKeys_deleteBill (db : DB) (oid : String) (scope : Scope)
    (h : GoodKeys db.occs) :
    GoodKeys (deleteBill db oid scope).2.occs := by
  unfold deleteBill
  cases hfind : db.occs.find? (fun o => o.id == oid) with
  | none => exact h
  | some ex =>
    dsimp only []
    cases scope with
    | thisOcc =>
      dsimp only []
      refine goodKeys_map_keep db.occs _ (fun q => ?_) h
      by_cases hq : (q.id == oid) = true
      · rw [if_pos hq]
        exact ⟨rfl, rfl, rfl⟩
      · rw [if_neg hq]
        exact ⟨rfl, rfl, rfl⟩
    | future =>
      dsimp only []
      split <;>
        · refine goodKeys_map_keep db.occs _ (fun q => ?_) h
          by_cases hq : (q.bill_id == ex.bill_id && strLe ex.due_date q.due_date) = true
          · rw [if_pos hq]
            exact ⟨rfl, rfl, rfl⟩
          · rw [if_neg hq]
            exact ⟨rfl, rfl, rfl⟩

lemma reachable_goodKeys (db : DB) (h : Reachable db) : GoodKeys db.occs := by
  induction h with
  | empty => exact List.Pairwise.nil
  | post db nm amount dueDate recurrence billId ids hr ih =>
    exact goodKeys_postBill db nm amount dueDate recurrence billId ids ih
  | window db month ids hr ih => exact goodKeys_getBills db month ids ih
  | update db oid p scope hr ih => exact goodKeys_putBill db oid p scope ih
  | remove db oid scope hr ih => exact goodKeys_deleteBill db oid scope ih

/-- C1: in every storage state reachable through series creation, window
materialization and the this/future-scope update and delete routes, no two
non-deleted occurrences of the same series share a due date — each write
path either leaves the occurrence keys untouched or passes through the
schema's uniqueness constraint. -/
theorem reachable_no_active_dup (db : DB) (h : Reachable db) : NoActiveDup db.occs :=
  List.Pairwise.imp (fun hk _ _ hbill hdue => hk.2 ⟨hbill, hdue⟩)
    (reachable_goodKeys db h)

/-- Witness for C1: the state after creating one series on the empty
database is reachable and satisfies the uniqueness property. -/
theorem reachable_no_active_dup_witness :
    NoActiveDup (postBill ⟨[], []⟩ "rent" 100 "2024-01-15"
      Recurrence.monthly "b1" idsA).2.occs :=
  reachable_no_active_dup _
    (Reachable.post ⟨[], []⟩ "rent" 100 "2024-01-15" Recurrence.monthly "b1" idsA
      Reachable.empty)

end BillBoss
